import Mathlib

/-!
Verification of the memory-management core of the wasm-kernel repository.

The definitions below are shallow embeddings of the Rust source:
  * `src/mem/types.rs`   — typed address/size primitives (checked u64 arithmetic),
  * `src/mem/vpa.rs`     — the dual-tree best-fit virtual page allocator,
  * `src/arch/x86_64/paging.rs` — `PageTableSet::map_range`,
  * `src/mem/pmm.rs` and `src/mem/init.rs` — page-descriptor table, free-list
    physical allocator, and the bootstrap allocator's `is_used`,
  * `src/mem/malloc.rs`  — the bump-heap OOM handler.

Machine integers are modelled as `Nat` with explicit `% 2^64` where the Rust
code uses plain (wrapping) `u64` arithmetic, and with `Option`/`Except`
results where the Rust code uses `checked_*` operations or `panic!`/`assert!`
(a panic is modelled as `none`/`.error`).
-/

/-- `PAGE_SMALL_SIZE` from `src/arch/x86_64/mod.rs`: bytes per small page. -/
def PAGE_SMALL_SIZE : Nat := 4096

/-- `MEDIUM_PAGE_PAGE_SIZE` (in small-page units) from `src/arch/x86_64/mod.rs`. -/
def MEDIUM_PAGE_PAGE_SIZE : Nat := 512

/-- `LARGE_PAGE_PAGE_SIZE` (in small-page units) from `src/arch/x86_64/mod.rs`. -/
def LARGE_PAGE_PAGE_SIZE : Nat := 512 * 512

/-- The number of values of a `u64`. -/
def U64_CARD : Nat := 2 ^ 64

/-! ## `src/mem/types.rs` — checked arithmetic (`impl_math`, `impl_diff`) -/

/-- `impl_math!(Add, ByteSize/PageSize, _)` for all four address/frame types:
`self.0.checked_add(rhs.0.try_into().unwrap()).unwrap()` with an unsigned
right-hand side.  `none` models the `unwrap` panic on overflow. -/
def addSize (a s : Nat) : Option Nat :=
  if a + s < U64_CARD then some (a + s) else none

/-- `impl_math!(Sub, ByteSize/PageSize, _)`: `checked_sub` with an unsigned
right-hand side; `none` models the panic when the result would be negative. -/
def subSize (a s : Nat) : Option Nat :=
  if s ≤ a then some (a - s) else none

/-- `impl_math!(Add, ByteDiff/PageDiff, _)`: the signed right-hand side first
goes through `try_into::<u64>().unwrap()` (panics when negative), then
`checked_add`. -/
def addDiff (a : Nat) (d : Int) : Option Nat :=
  if 0 ≤ d then (if a + d.toNat < U64_CARD then some (a + d.toNat) else none) else none

/-- `impl_math!(Sub, ByteDiff/PageDiff, _)`: `try_into::<u64>().unwrap()` on the
signed operand, then `checked_sub`. -/
def subDiff (a : Nat) (d : Int) : Option Nat :=
  if 0 ≤ d then (if d.toNat ≤ a then some (a - d.toNat) else none) else none

/-- `impl_diff!`: address − address via `checked_signed_diff(...).unwrap()`,
failing when the difference does not fit in an `i64`. -/
def checkedSignedDiff (a b : Nat) : Option Int :=
  if -(2 ^ 63 : Int) ≤ (a : Int) - b ∧ (a : Int) - b < 2 ^ 63 then some ((a : Int) - b) else none

/-- `PhysicalAddress::frame_aligned` / `VirtualAddress::frame_aligned`:
`assert!(self.is_aligned(SMALL_PAGE_PAGE_SIZE))` then divide by the page size.
`none` models the assertion failure on an unaligned address. -/
def frame_aligned (a : Nat) : Option Nat :=
  if a % PAGE_SMALL_SIZE = 0 then some (a / PAGE_SMALL_SIZE) else none

/-- `ByteSize::page_size_roundup`: `(self.0 + PAGE_SMALL_SIZE - 1) / PAGE_SMALL_SIZE`
on wrapping `u64` arithmetic ( `(b + 4096) - 1 ≡ b + 4095 (mod 2^64)` ). -/
def page_size_roundup (b : Nat) : Nat :=
  ((b + (PAGE_SMALL_SIZE - 1)) % U64_CARD) / PAGE_SMALL_SIZE

/-- `From<PageSize> for ByteSize`: `checked_mul(PAGE_SMALL_SIZE).unwrap()`;
`none` models the panic on overflow. -/
def page_size_to_bytes (p : Nat) : Option Nat :=
  if p * PAGE_SMALL_SIZE < U64_CARD then some (p * PAGE_SMALL_SIZE) else none

/-- C9: the checked `Add`/`Sub` operations on `VirtualAddress`, `PhysicalAddress`,
`PageFrameNumber` and `VirtualPageFrameNumber` (all instances of the same
`impl_math`/`impl_diff` macros) fail fatally when the 64-bit result would
overflow and never silently wrap (a returned value is always the exact
mathematical result), and the `frame_aligned` conversions fail fatally on a
non-page-aligned address. -/
theorem C9_checked_arithmetic (a s : Nat) (d : Int) (b : Nat) :
    (U64_CARD ≤ a + s → addSize a s = none)
    ∧ (∀ v, addSize a s = some v → v = a + s)
    ∧ ((a : Int) - s < 0 → subSize a s = none)
    ∧ (∀ v, subSize a s = some v → (v : Int) = (a : Int) - s)
    ∧ ((U64_CARD : Int) ≤ (a : Int) + d → addDiff a d = none)
    ∧ (∀ v, addDiff a d = some v → (v : Int) = (a : Int) + d)
    ∧ ((a : Int) - d < 0 → subDiff a d = none)
    ∧ (∀ v, subDiff a d = some v → (v : Int) = (a : Int) - d)
    ∧ (((a : Int) - b < -(2 ^ 63) ∨ (2 ^ 63 : Int) ≤ (a : Int) - b) → checkedSignedDiff a b = none)
    ∧ (∀ v, checkedSignedDiff a b = some v → v = (a : Int) - b)
    ∧ (a % PAGE_SMALL_SIZE ≠ 0 → frame_aligned a = none)
    ∧ (∀ v, frame_aligned a = some v → v = a / PAGE_SMALL_SIZE) := by
  unfold addSize subSize addDiff subDiff checkedSignedDiff frame_aligned U64_CARD PAGE_SMALL_SIZE
  refine ⟨?_, ?_, ?_, ?_, ?_, ?_, ?_, ?_, ?_, ?_, ?_, ?_⟩ <;>
    (intro h; split_ifs <;> simp_all <;> omega)

/-- Witness for C9 at concrete inputs: adding 1 to the maximal `u64` address
fails, and converting the unaligned address 4097 to a frame number fails. -/
theorem C9_checked_arithmetic_witness :
    addSize (2 ^ 64 - 1) 1 = none ∧ frame_aligned 4097 = none :=
  ⟨(C9_checked_arithmetic (2 ^ 64 - 1) 1 0 0).1 (by decide),
   (C9_checked_arithmetic 4097 0 0 0).2.2.2.2.2.2.2.2.2.2.1 (by decide)⟩

/-- C8 (amended): for every byte size `b` whose page roundup does not overflow
the 64-bit counter (`b + PAGE_SMALL_SIZE ≤ 2^64`), rounding up to pages and
converting back to bytes succeeds and yields the smallest multiple of the
small page size that is at least `b`. -/
theorem C8_roundup_amended (b : Nat) (hb : b + PAGE_SMALL_SIZE ≤ U64_CARD) :
    page_size_to_bytes (page_size_roundup b) = some (page_size_roundup b * PAGE_SMALL_SIZE)
    ∧ b ≤ page_size_roundup b * PAGE_SMALL_SIZE
    ∧ page_size_roundup b * PAGE_SMALL_SIZE % PAGE_SMALL_SIZE = 0
    ∧ ∀ m, m % PAGE_SMALL_SIZE = 0 → b ≤ m → page_size_roundup b * PAGE_SMALL_SIZE ≤ m := by
  unfold page_size_to_bytes page_size_roundup U64_CARD PAGE_SMALL_SIZE at *
  have hmod : (b + (4096 - 1)) % 2 ^ 64 = b + 4095 := Nat.mod_eq_of_lt (by omega)
  rw [hmod]
  refine ⟨?_, by omega, by omega, ?_⟩
  · rw [if_pos (by omega)]
  · intro m hm hbm
    omega

/-- Witness for C8 at `b = 5`: rounding up gives one page, i.e. 4096 bytes. -/
theorem C8_roundup_amended_witness :
    page_size_to_bytes (page_size_roundup 5) = some (page_size_roundup 5 * PAGE_SMALL_SIZE)
    ∧ 5 ≤ page_size_roundup 5 * PAGE_SMALL_SIZE :=
  ⟨(C8_roundup_amended 5 (by decide)).1, (C8_roundup_amended 5 (by decide)).2.1⟩

/-- C8 counterexample: at `b = 2^64 - 1` the wrapping computation
`(b + PAGE_SMALL_SIZE - 1) / PAGE_SMALL_SIZE` wraps around to 0 pages, whose
byte size 0 is smaller than `b` — the round-trip is not `≥ b` for all `b`. -/
theorem C8_roundup_counterexample :
    page_size_to_bytes (page_size_roundup (2 ^ 64 - 1)) = some 0 ∧ (0 : Nat) < 2 ^ 64 - 1 := by
  constructor
  · rfl
  · decide

/-! ## `src/mem/vpa.rs` — the dual-tree best-fit virtual page allocator

A `VFRange` is a pair `(start, end)` of virtual page frame numbers with
`start ≤ end`.  The `TreeAllocator` holds every free-range node in two
red-black trees at once: one keyed by range size, one keyed by base address.
Each tree is modelled by its in-order traversal (a list); `lower_bound` on a
tree becomes `List.find?` on the traversal, and inserting a node places it
after all nodes with a smaller-or-equal key (duplicate keys go to the right,
as in `intrusive_collections::RBTree::insert`). -/

/-- `AddressRange::size` for a `(start, end)` pair, in pages. -/
def rsize (r : Nat × Nat) : Nat := r.2 - r.1

/-- `AddressRange::intersects`: `self.start() < range.end() && range.start() < self.end()`. -/
def intersects (a b : Nat × Nat) : Prop := a.1 < b.2 ∧ b.1 < a.2

instance (a b : Nat × Nat) : Decidable (intersects a b) := by
  unfold intersects; infer_instance

/-- Insert a node into the by-size tree (keyed by `rsize`, duplicates after
existing equal keys), represented by its in-order traversal. -/
def insertBySize : List (Nat × Nat) → (Nat × Nat) → List (Nat × Nat)
  | [], r => [r]
  | x :: xs, r => if rsize x ≤ rsize r then x :: insertBySize xs r else r :: x :: xs

/-- Insert a node into the by-base tree (keyed by `start`, duplicates after
existing equal keys), represented by its in-order traversal. -/
def insertByBase : List (Nat × Nat) → (Nat × Nat) → List (Nat × Nat)
  | [], r => [r]
  | x :: xs, r => if x.1 ≤ r.1 then x :: insertByBase xs r else r :: x :: xs

/-- `TreeAllocator`: the two trees (`by_size`, `by_base`) over the same set of
free-range nodes, each given by its in-order traversal. -/
structure TreeAllocator where
  by_size : List (Nat × Nat)
  by_base : List (Nat × Nat)
deriving DecidableEq

/-- `TreeAllocator::insert`: add one node to both trees. -/
def TreeAllocator.insert (st : TreeAllocator) (r : Nat × Nat) : TreeAllocator :=
  { by_size := insertBySize st.by_size r, by_base := insertByBase st.by_base r }

/-- `TreeAllocator::allocate(size)`: `lower_bound(Included(size))` on the size
tree (the first node in size order whose size is `≥ size`), remove the node
from both trees, and re-insert the remainder when it is nonempty.  Returns the
allocated base and the new allocator state. -/
def TreeAllocator.allocate (st : TreeAllocator) (s : Nat) : Option (Nat × TreeAllocator) :=
  (st.by_size.find? (fun r => decide (s ≤ rsize r))).map (fun r =>
    let st1 : TreeAllocator := ⟨st.by_size.erase r, st.by_base.erase r⟩
    if r.1 + s = r.2 then (r.1, st1) else (r.1, st1.insert (r.1 + s, r.2)))

/-- `TreeAllocator::free(range)`: both overlap checks, the two coalescing
steps, and the final insert, exactly as in the source.  `left_cursor` is
`by_base.lower_bound(Excluded(range.start()))` — the first node whose base is
strictly greater than `range.start()` — and `right_cursor` is
`by_base.lower_bound(Included(range.end()))` — the first node whose base is at
least `range.end()`. -/
def TreeAllocator.free (st : TreeAllocator) (r : Nat × Nat) : Except Unit TreeAllocator :=
  let left? := st.by_base.find? (fun n => decide (r.1 < n.1))
  let right? := st.by_base.find? (fun n => decide (r.2 ≤ n.1))
  if left?.any (fun l => decide (intersects l r)) then .error ()
  else if right?.any (fun n => decide (intersects n r)) then .error ()
  else
    -- left coalescing: re-query `lower_bound(Excluded(range.start()))`
    let step1 : TreeAllocator × (Nat × Nat) :=
      match st.by_base.find? (fun n => decide (r.1 < n.1)) with
      | some l =>
        if l.2 = r.1 then
          (⟨st.by_size.erase l, st.by_base.erase l⟩, (l.1, r.2))
        else (st, r)
      | none => (st, r)
    -- right coalescing: re-query `lower_bound(Included(range.end()))`
    let step2 : TreeAllocator × (Nat × Nat) :=
      match step1.1.by_base.find? (fun n => decide (step1.2.2 ≤ n.1)) with
      | some n =>
        if n.1 = step1.2.2 then
          (⟨step1.1.by_size.erase n, step1.1.by_base.erase n⟩, (step1.2.1, n.2))
        else step1
      | none => step1
    .ok (step2.1.insert step2.2)

/-- C1 (code bug): on the single free range `[0,10)`, freeing the overlapping
range `[5,7)` is accepted — `free` returns `Ok` and inserts the overlapping
node into both trees instead of rejecting it and leaving the trees unchanged.
The overlap check only inspects the first node whose base is strictly greater
than the freed range's start, so a free node starting at or before the freed
range's start is never tested. -/
theorem C1_overlap_accepted :
    TreeAllocator.free ⟨[(0, 10)], [(0, 10)]⟩ (5, 7)
      = .ok ⟨[(5, 7), (0, 10)], [(0, 10), (5, 7)]⟩
    ∧ intersects (0, 10) (5, 7) := by
  exact ⟨rfl, by decide⟩

/-- C2 (code bug): freeing `[5,10)` when the adjacent range `[0,5)` (which
ends exactly at the freed range's start) is free does not coalesce: the result
holds two nodes `[0,5)` and `[5,10)` instead of the single union `[0,10)`.
The left-coalescing cursor is `lower_bound(Excluded(range.start()))`, which
points at nodes after the freed range, so a node with `end == range.start()`
can never be found there. -/
theorem C2_left_merge_missed :
    TreeAllocator.free ⟨[(0, 5)], [(0, 5)]⟩ (5, 10)
      = .ok ⟨[(0, 5), (5, 10)], [(0, 5), (5, 10)]⟩ := by
  exact rfl

/-- `find?` on a size-sorted traversal returns a node of minimal size among
those satisfying the size request. -/
theorem find_best_fit (l : List (Nat × Nat)) (s : Nat) (r : Nat × Nat)
    (hs : l.Pairwise (fun a b => rsize a ≤ rsize b))
    (hf : l.find? (fun x => decide (s ≤ rsize x)) = some r) :
    r ∈ l ∧ s ≤ rsize r ∧ ∀ x ∈ l, s ≤ rsize x → rsize r ≤ rsize x := by
  induction l with
  | nil => simp at hf
  | cons a t ih =>
    rcases hs with _ | ⟨ha, ht⟩
    by_cases h : s ≤ rsize a
    · rw [List.find?_cons_of_pos _ (by simpa using h)] at hf
      obtain rfl : a = r := by injection hf
      refine ⟨List.mem_cons_self _ _, h, ?_⟩
      intro x hx _
      rcases List.mem_cons.mp hx with rfl | hx
      · exact le_refl _
      · exact ha x hx
    · rw [List.find?_cons_of_neg _ (by simpa using h)] at hf
      obtain ⟨hmem, hle, hmin⟩ := ih ht hf
      refine ⟨List.mem_cons_of_mem _ hmem, hle, ?_⟩
      intro x hx hsx
      rcases List.mem_cons.mp hx with rfl | hx
      · exact absurd hsx h
      · exact hmin x hx hsx

/-- C4: when the by-size traversal is sorted by size (the red-black-tree
invariant), `allocate(s)` returns `none` exactly when no free range has size
`≥ s`; otherwise it returns the base of a free range of minimal size among
those with size `≥ s`, removes that node from both trees, and re-inserts the
remainder `[base+s, end)` when it is nonempty.  On the free ranges `[0,10)`
and `[20,25)`, `allocate 3` returns base 20 and leaves `[0,10)` and `[23,25)`. -/
theorem C4_best_fit (st : TreeAllocator) (s : Nat)
    (hs : st.by_size.Pairwise (fun a b => rsize a ≤ rsize b)) :
    (st.allocate s = none ↔ ∀ r ∈ st.by_size, rsize r < s)
    ∧ (∀ b st', st.allocate s = some (b, st') →
        ∃ r ∈ st.by_size, r.1 = b ∧ s ≤ rsize r
          ∧ (∀ x ∈ st.by_size, s ≤ rsize x → rsize r ≤ rsize x)
          ∧ st' = (if r.1 + s = r.2
              then TreeAllocator.mk (st.by_size.erase r) (st.by_base.erase r)
              else (TreeAllocator.mk (st.by_size.erase r) (st.by_base.erase r)).insert
                     (r.1 + s, r.2)))
    ∧ TreeAllocator.allocate ⟨[(20, 25), (0, 10)], [(0, 10), (20, 25)]⟩ 3
        = some (20, ⟨[(23, 25), (0, 10)], [(0, 10), (23, 25)]⟩) := by
  refine ⟨?_, ?_, rfl⟩
  · rw [show st.allocate s = (st.by_size.find? (fun r => decide (s ≤ rsize r))).map _ from rfl,
      Option.map_eq_none', List.find?_eq_none]
    constructor
    · intro hnone x hx
      have hx' := hnone x hx
      simp only [decide_eq_true_eq] at hx'
      exact Nat.lt_of_not_le hx'
    · intro hall x hx
      simp only [decide_eq_true_eq]
      exact Nat.not_le_of_lt (hall x hx)
  · intro b st' h
    rw [show st.allocate s = (st.by_size.find? (fun r => decide (s ≤ rsize r))).map _ from rfl,
      Option.map_eq_some'] at h
    obtain ⟨r, hfind, heq⟩ := h
    obtain ⟨hmem, hle, hmin⟩ := find_best_fit _ _ _ hs hfind
    simp only at heq
    split at heq
    next hc =>
      obtain ⟨h1, h2⟩ := Prod.mk.injEq .. ▸ heq
      exact ⟨r, hmem, h1, hle, hmin, by rw [if_pos hc]; exact h2.symm⟩
    next hc =>
      obtain ⟨h1, h2⟩ := Prod.mk.injEq .. ▸ heq
      exact ⟨r, hmem, h1, hle, hmin, by rw [if_neg hc]; exact h2.symm⟩

/-- Witness for C4: the scenario state has a size-sorted by-size traversal and
`allocate 3` behaves as stated. -/
theorem C4_best_fit_witness :
    ([((20 : Nat), (25 : Nat)), (0, 10)].Pairwise (fun a b => rsize a ≤ rsize b))
    ∧ TreeAllocator.allocate ⟨[(20, 25), (0, 10)], [(0, 10), (20, 25)]⟩ 3
        = some (20, ⟨[(23, 25), (0, 10)], [(0, 10), (23, 25)]⟩) :=
  ⟨by decide, (C4_best_fit ⟨[(20, 25), (0, 10)], [(0, 10), (20, 25)]⟩ 3 (by decide)).2.2⟩

/-! ## `src/mem/pmm.rs` and `src/mem/init.rs` — page-descriptor table and
free-list physical allocator

`init_pdt`'s second pass walks the memory map (entry by entry, offset by
offset), writes one descriptor per frame — `Free(next)` threading a LIFO list
for usable frames not claimed by the bootstrap allocator, `Used` otherwise —
and finally stores the list head.  `PMM::allocate_pages` pops the head under
the lock.  Descriptors are modelled as a function from frame numbers to
states; `assert!`/`panic!` paths are modelled as `none`. -/

/-- `MemoryMapType` from `src/mem/requests.rs`. -/
inductive MemoryMapType where
  | Usable | Reserved | ACPIReclaimable | ACPINVS | BadMemory
  | BootloaderReclaimable | KernelBinaries | Framebuffer | Unknown
deriving DecidableEq

/-- `MemoryMapEntry`: start frame, frame count, region kind. -/
structure MMapEntry where
  start : Nat
  size : Nat
  typ : MemoryMapType
deriving DecidableEq

/-- The bootstrap allocator's cursor (`EarlyPMMInner`): map-entry index and
intra-entry offset, frozen at the time `init_pdt` runs its second pass. -/
structure EarlyPMMState where
  index : Nat
  offset : Nat
deriving DecidableEq

/-- `EarlyPMM::is_used(index, offset)`:
`index < state.index || (index == state.index && offset < state.offset)`. -/
def is_used (pmm : EarlyPMMState) (i off : Nat) : Bool :=
  decide (i < pmm.index ∨ (i = pmm.index ∧ off < pmm.offset))

/-- `page_info::PageState`: `Free(Option<PageFrameNumber>)` or `Used`. -/
inductive PageState where
  | Free : Option Nat → PageState
  | Used : PageState
deriving DecidableEq

/-- The page-descriptor table and the free-list head (`PDTData`). -/
structure PDTState where
  desc : Nat → PageState
  head : Option Nat

/-- Write one descriptor (`*info = ...`). -/
def writeDesc (d : Nat → PageState) (f : Nat) (s : PageState) : Nat → PageState :=
  fun x => if x = f then s else d x

/-- One step of `init_pdt`'s second pass for one frame position
`(frame, qualifies)`: a qualifying frame gets `Free(next_free)` and becomes
the new `next_free`; any other covered frame gets `Used`. -/
def pass2Step (acc : (Nat → PageState) × Option Nat) (p : Nat × Bool) :
    (Nat → PageState) × Option Nat :=
  if p.2 then (writeDesc acc.1 p.1 (.Free acc.2), some p.1)
  else (writeDesc acc.1 p.1 .Used, acc.2)

/-- The frame positions visited by `init_pdt`'s second pass, in walk order:
for the entry at index `i` and each `offset` in `0..entry.size`, the frame
`entry.start + offset` paired with whether it qualifies as free
(`entry.entry_type == Usable && !pmm.is_used(index, offset)`). -/
def walkPositions (entries : List MMapEntry) (pmm : EarlyPMMState) : List (Nat × Bool) :=
  entries.enum.flatMap (fun ie =>
    (List.range ie.2.size).map (fun off =>
      (ie.2.start + off, (ie.2.typ == MemoryMapType.Usable) && !(is_used pmm ie.1 off))))

/-- `init_pdt`'s second pass: fold the descriptor writes over the walk and
store the final `next_free` as the free-list head. -/
def init_pdt (entries : List MMapEntry) (pmm : EarlyPMMState) (d0 : Nat → PageState) :
    PDTState :=
  let r := (walkPositions entries pmm).foldl pass2Step (d0, none)
  ⟨r.1, r.2⟩

/-- The qualifying (freed) frames of the walk, in walk order. -/
def qualFrames (entries : List MMapEntry) (pmm : EarlyPMMState) : List Nat :=
  ((walkPositions entries pmm).filter (fun p => p.2)).map Prod.fst

/-- `PMM::allocate_pages(count)`: `assert!(count == 1)` (modelled as `none` on
failure), then pop the free-list head: if the head's descriptor is
`Free(next)` the head becomes `next` and the old head frame is returned; a
head pointing at a `Used` descriptor is the fatal
"free list points to non-free page" panic (modelled as `none`).  The
descriptor array itself is never written. -/
def PMM.allocate_pages (st : PDTState) (count : Nat) : Option (Nat × PDTState) :=
  if count = 1 then
    match st.head with
    | none => none
    | some f =>
      match st.desc f with
      | .Free next => some (f, ⟨st.desc, next⟩)
      | .Used => none
  else none

/-- One `allocate_single_page` call as a state transformer (the state is
unchanged when the call fails fatally). -/
def allocStep (st : PDTState) : PDTState :=
  match PMM.allocate_pages st 1 with
  | some (_, st') => st'
  | none => st

/-- `n` successive `allocate_single_page` calls. -/
def allocN : Nat → PDTState → PDTState
  | 0, st => st
  | n + 1, st => allocN n (allocStep st)

/-- `freeChain d h l`: following the `Free(next)` links from head `h` visits
exactly the frames of `l`, every visited descriptor is `Free`, and the chain
ends at `None`. -/
def freeChain (d : Nat → PageState) : Option Nat → List Nat → Prop
  | h, [] => h = none
  | h, f :: rest =>
    h = some f ∧ (match d f with | .Free nxt => freeChain d nxt rest | .Used => False)

/-- Writing a descriptor outside a chain leaves the chain intact. -/
theorem freeChain_write (d : Nat → PageState) (h : Option Nat) (acc : List Nat)
    (f : Nat) (s : PageState) (hna : f ∉ acc) (hc : freeChain d h acc) :
    freeChain (writeDesc d f s) h acc := by
  induction acc generalizing h with
  | nil => exact hc
  | cons g rest ih =>
    obtain ⟨hh, hm⟩ := hc
    refine ⟨hh, ?_⟩
    have hgf : g ≠ f := fun he => hna (he ▸ List.mem_cons_self g rest)
    simp only [writeDesc, if_neg hgf]
    revert hm
    cases d g with
    | Used => exact id
    | Free nxt => exact fun hm => ih nxt (fun hf => hna (List.mem_cons_of_mem _ hf)) hm

/-- The second pass threads a LIFO free list: starting from a chain `acc`
disjoint from the walked frames, the fold yields a duplicate-free chain made
of the qualifying walked frames in reverse walk order, on top of `acc`. -/
theorem pass2_chain (ps : List (Nat × Bool)) (d0 : Nat → PageState) (h0 : Option Nat)
    (acc : List Nat) (hc : freeChain d0 h0 acc) (hnd : acc.Nodup)
    (hndps : (ps.map Prod.fst).Nodup) (hdisj : ∀ g ∈ acc, g ∉ ps.map Prod.fst) :
    freeChain (ps.foldl pass2Step (d0, h0)).1 (ps.foldl pass2Step (d0, h0)).2
      (((ps.filter (fun p => p.2)).map Prod.fst).reverse ++ acc)
    ∧ ((((ps.filter (fun p => p.2)).map Prod.fst).reverse ++ acc)).Nodup := by
  induction ps generalizing d0 h0 acc with
  | nil => simpa using ⟨hc, hnd⟩
  | cons p tl ih =>
    simp only [List.map_cons, List.nodup_cons] at hndps
    obtain ⟨hp1, hndtl⟩ := hndps
    have hp1acc : p.1 ∉ acc := fun hmem => hdisj p.1 hmem (List.mem_cons_self _ _)
    have hdisj' : ∀ g ∈ p.1 :: acc, g ∉ tl.map Prod.fst := by
      intro g hg
      rcases List.mem_cons.mp hg with rfl | hg
      · exact hp1
      · exact fun hmem => hdisj g hg (List.mem_cons_of_mem _ hmem)
    by_cases hq : p.2 = true
    · have hstep : pass2Step (d0, h0) p = (writeDesc d0 p.1 (.Free h0), some p.1) := by
        simp [pass2Step, hq]
      have hc' : freeChain (writeDesc d0 p.1 (.Free h0)) (some p.1) (p.1 :: acc) := by
        refine ⟨rfl, ?_⟩
        simp only [writeDesc, if_pos rfl]
        exact freeChain_write d0 h0 acc p.1 _ hp1acc hc
      have := ih (writeDesc d0 p.1 (.Free h0)) (some p.1) (p.1 :: acc) hc'
        (List.nodup_cons.mpr ⟨hp1acc, hnd⟩) hndtl hdisj'
      have hlist : (((p :: tl).filter (fun p => p.2)).map Prod.fst).reverse ++ acc
          = ((tl.filter (fun p => p.2)).map Prod.fst).reverse ++ (p.1 :: acc) := by
        simp [List.filter_cons, hq, List.append_assoc]
      simp only [List.foldl_cons, hstep, hlist]
      exact this
    · have hq' : p.2 = false := Bool.not_eq_true _ ▸ Bool.eq_false_iff.mpr hq
      have hstep : pass2Step (d0, h0) p = (writeDesc d0 p.1 .Used, h0) := by
        simp [pass2Step, hq']
      have hc' : freeChain (writeDesc d0 p.1 .Used) h0 acc :=
        freeChain_write d0 h0 acc p.1 _ hp1acc hc
      have hdisj'' : ∀ g ∈ acc, g ∉ tl.map Prod.fst :=
        fun g hg => hdisj' g (List.mem_cons_of_mem _ hg)
      have := ih (writeDesc d0 p.1 .Used) h0 acc hc' hnd hndtl hdisj''
      simp only [List.foldl_cons, hstep]
      simpa [List.filter_cons, hq'] using this

/-- A frame not visited by the fold keeps its descriptor. -/
theorem pass2_preserve (ps : List (Nat × Bool)) (d : Nat → PageState) (h : Option Nat)
    (f : Nat) (hf : f ∉ ps.map Prod.fst) :
    (ps.foldl pass2Step (d, h)).1 f = d f := by
  induction ps generalizing d h with
  | nil => rfl
  | cons p tl ih =>
    simp only [List.map_cons, List.mem_cons, not_or] at hf
    have hstep : (pass2Step (d, h) p).1 f = d f := by
      unfold pass2Step writeDesc
      split <;> simp [hf.1]
    calc ((p :: tl).foldl pass2Step (d, h)).1 f
        = (tl.foldl pass2Step (pass2Step (d, h) p)).1 f := rfl
      _ = (pass2Step (d, h) p).1 f := ih _ _ hf.2
      _ = d f := hstep

/-- Each visited frame's final descriptor is decided by its (unique) position
in the walk: `Free` when it qualifies, `Used` otherwise. -/
theorem pass2_desc (ps : List (Nat × Bool)) (d : Nat → PageState) (h : Option Nat)
    (hnd : (ps.map Prod.fst).Nodup) (p : Nat × Bool) (hp : p ∈ ps) :
    (p.2 = true → ∃ nxt, (ps.foldl pass2Step (d, h)).1 p.1 = .Free nxt)
    ∧ (p.2 = false → (ps.foldl pass2Step (d, h)).1 p.1 = .Used) := by
  induction ps generalizing d h with
  | nil => cases hp
  | cons q tl ih =>
    simp only [List.map_cons, List.nodup_cons] at hnd
    obtain ⟨hq1, hndtl⟩ := hnd
    rcases List.mem_cons.mp hp with rfl | hp
    · have hpres : (tl.foldl pass2Step (pass2Step (d, h) p)).1 p.1
          = (pass2Step (d, h) p).1 p.1 := pass2_preserve tl _ _ p.1 hq1
      constructor
      · intro hq
        refine ⟨h, ?_⟩
        calc ((p :: tl).foldl pass2Step (d, h)).1 p.1
            = (pass2Step (d, h) p).1 p.1 := hpres
          _ = .Free h := by simp [pass2Step, hq, writeDesc]
      · intro hq
        calc ((p :: tl).foldl pass2Step (d, h)).1 p.1
            = (pass2Step (d, h) p).1 p.1 := hpres
          _ = .Used := by simp [pass2Step, hq, writeDesc]
    · exact ih _ _ hndtl hp

/-- Membership in the walk of `init_pdt`'s second pass. -/
theorem mem_walkPositions {entries : List MMapEntry} {pmm : EarlyPMMState}
    {ie : Nat × MMapEntry} {off : Nat} (hie : ie ∈ entries.enum) (hoff : off < ie.2.size) :
    (ie.2.start + off, (ie.2.typ == MemoryMapType.Usable) && !(is_used pmm ie.1 off))
      ∈ walkPositions entries pmm := by
  unfold walkPositions
  exact List.mem_flatMap.mpr ⟨ie, hie, List.mem_map.mpr ⟨off, List.mem_range.mpr hoff, rfl⟩⟩

/-- C7: after `init_pdt`'s second pass (with the loader-guaranteed
non-overlapping memory map, i.e. no frame is visited twice), a covered
frame's descriptor is `Free` exactly when its entry is `Usable` and the
bootstrap allocator's `is_used(index, offset)` is false at its position;
every other covered frame is `Used`; and the free frames are threaded into a
singly-linked LIFO list: the links follow the walk order in reverse, so the
head is the last qualifying frame written. -/
theorem C7_init_pdt (entries : List MMapEntry) (pmm : EarlyPMMState) (d0 : Nat → PageState)
    (hnd : ((walkPositions entries pmm).map Prod.fst).Nodup) :
    (∀ ie ∈ entries.enum, ∀ off < ie.2.size,
        ((ie.2.typ = .Usable ∧ is_used pmm ie.1 off = false) →
            ∃ nxt, (init_pdt entries pmm d0).desc (ie.2.start + off) = .Free nxt)
        ∧ (¬(ie.2.typ = .Usable ∧ is_used pmm ie.1 off = false) →
            (init_pdt entries pmm d0).desc (ie.2.start + off) = .Used))
    ∧ freeChain (init_pdt entries pmm d0).desc (init_pdt entries pmm d0).head
        (qualFrames entries pmm).reverse
    ∧ (init_pdt entries pmm d0).head = (qualFrames entries pmm).getLast? := by
  have hchain := pass2_chain (walkPositions entries pmm) d0 none [] rfl List.nodup_nil hnd
    (by intro g hg; cases hg)
  simp only [List.append_nil] at hchain
  have hchain' : freeChain (init_pdt entries pmm d0).desc (init_pdt entries pmm d0).head
      (qualFrames entries pmm).reverse := hchain.1
  refine ⟨?_, hchain', ?_⟩
  · intro ie hie off hoff
    have hmem := @mem_walkPositions entries pmm ie off hie hoff
    have hdesc := pass2_desc (walkPositions entries pmm) d0 none hnd _ hmem
    constructor
    · intro ⟨ht, hu⟩
      exact hdesc.1 (by simp [ht, hu])
    · intro hno
      refine hdesc.2 ?_
      rcases hb : (ie.2.typ == MemoryMapType.Usable) && !(is_used pmm ie.1 off) with _ | _
      · rfl
      · exfalso
        simp only [Bool.and_eq_true, beq_iff_eq, Bool.not_eq_true'] at hb
        exact hno hb
  · rcases hrev : (qualFrames entries pmm).reverse with _ | ⟨x, rest⟩
    · have : qualFrames entries pmm = [] := by
        simpa using congrArg List.reverse hrev
      rw [this]
      rw [hrev] at hchain'
      exact hchain'
    · rw [hrev] at hchain'
      have hx : (init_pdt entries pmm d0).head = some x := hchain'.1
      rw [hx, ← List.head?_reverse, hrev]
      rfl

/-- Popping the free list preserves the chain invariant. -/
theorem allocStep_inv (st : PDTState)
    (h : ∃ l, freeChain st.desc st.head l ∧ l.Nodup) :
    ∃ l, freeChain (allocStep st).desc (allocStep st).head l ∧ l.Nodup := by
  obtain ⟨l, hc, hnd⟩ := h
  unfold allocStep PMM.allocate_pages
  rcases hh : st.head with _ | f
  · simp only [if_pos rfl, hh]
    exact ⟨l, hh ▸ hc, hnd⟩
  · rcases l with _ | ⟨g, rest⟩
    · rw [show freeChain st.desc st.head [] = (st.head = none) from rfl, hh] at hc
      cases hc
    · obtain ⟨hg, hm⟩ := hc
      have hfg : f = g := by rw [hh] at hg; injection hg
      subst hfg
      rcases hd : st.desc f with nxt | _
      · rw [hd] at hm
        simp only [if_pos rfl, hh, hd]
        exact ⟨rest, hm, hnd.of_cons⟩
      · rw [hd] at hm
        cases hm

/-- C6: after `init_pdt` (on a non-overlapping memory map) and any number of
subsequent `allocate_single_page` calls, the free list is sound: following the
`Free(next)` links from the head visits only frames whose descriptor is
`Free`, the chain is finite (ends at `None`), and no frame appears twice. -/
theorem C6_free_list_sound (entries : List MMapEntry) (pmm : EarlyPMMState)
    (d0 : Nat → PageState) (n : Nat)
    (hnd : ((walkPositions entries pmm).map Prod.fst).Nodup) :
    ∃ l, freeChain (allocN n (init_pdt entries pmm d0)).desc
        (allocN n (init_pdt entries pmm d0)).head l ∧ l.Nodup := by
  have hbase := pass2_chain (walkPositions entries pmm) d0 none [] rfl List.nodup_nil hnd
    (by intro g hg; cases hg)
  simp only [List.append_nil] at hbase
  have hstart : ∃ l, freeChain (init_pdt entries pmm d0).desc (init_pdt entries pmm d0).head l
      ∧ l.Nodup := ⟨(qualFrames entries pmm).reverse, hbase.1, hbase.2⟩
  clear hbase hnd
  generalize (init_pdt entries pmm d0) = st at hstart ⊢
  induction n generalizing st with
  | zero => exact hstart
  | succ n ih => exact ih (allocStep st) (allocStep_inv st hstart)

/-- C10: a successful `PMM::allocate_pages` call mutates only the free-list
head — the descriptor array is untouched, so the returned frame's descriptor
still holds its prior `Free(next)` state, and the head becomes that `next`. -/
theorem C10_allocate_frame_effect (st : PDTState) (f : Nat) (st' : PDTState)
    (h : PMM.allocate_pages st 1 = some (f, st')) :
    st'.desc = st.desc
    ∧ ∃ nxt, st.desc f = .Free nxt ∧ st'.desc f = .Free nxt ∧ st'.head = nxt
        ∧ st.head = some f := by
  unfold PMM.allocate_pages at h
  rw [if_pos rfl] at h
  split at h
  · exact Option.noConfusion h
  · rename_i g hh
    split at h
    · rename_i nxt hd
      simp only [Option.some.injEq, Prod.mk.injEq] at h
      obtain ⟨rfl, rfl⟩ := h
      exact ⟨rfl, nxt, hd, hd, rfl, hh⟩
    · exact Option.noConfusion h

/-- The concrete descriptor table used by the C10 witness. -/
def descExample : Nat → PageState := fun n => if n = 5 then .Free none else .Used

/-- Witness for C10: allocating from the one-element free list `[5]` returns
frame 5, leaves every descriptor unchanged, and sets the head to `None`. -/
theorem C10_allocate_frame_effect_witness :
    PMM.allocate_pages ⟨descExample, some 5⟩ 1 = some (5, ⟨descExample, none⟩)
    ∧ ((⟨descExample, none⟩ : PDTState).desc = (⟨descExample, some 5⟩ : PDTState).desc
       ∧ ∃ nxt, (⟨descExample, some 5⟩ : PDTState).desc 5 = .Free nxt
          ∧ (⟨descExample, none⟩ : PDTState).desc 5 = .Free nxt
          ∧ (⟨descExample, none⟩ : PDTState).head = nxt
          ∧ (⟨descExample, some 5⟩ : PDTState).head = some 5) :=
  ⟨rfl, C10_allocate_frame_effect ⟨descExample, some 5⟩ 5 ⟨descExample, none⟩ rfl⟩

/-- The memory map used by the C6/C7 witnesses: a two-frame usable region at
frames 0-1 and a reserved frame at 2; the bootstrap allocator consumed
frame 0 (entry 0, offset 0). -/
def entriesExample : List MMapEntry := [⟨0, 2, .Usable⟩, ⟨2, 1, .Reserved⟩]

/-- The frozen bootstrap-allocator cursor for the C6/C7 witnesses. -/
def pmmExample : EarlyPMMState := ⟨0, 1⟩

/-- The pre-pass descriptor contents for the C6/C7 witnesses. -/
def descInitExample : Nat → PageState := fun _ => .Used

/-- Witness for C7 on the concrete map: the walked frames are distinct and the
free list is the LIFO chain of qualifying frames. -/
theorem C7_init_pdt_witness :
    ((walkPositions entriesExample pmmExample).map Prod.fst).Nodup
    ∧ freeChain (init_pdt entriesExample pmmExample descInitExample).desc
        (init_pdt entriesExample pmmExample descInitExample).head
        (qualFrames entriesExample pmmExample).reverse :=
  ⟨by decide, (C7_init_pdt entriesExample pmmExample descInitExample (by decide)).2.1⟩

/-- Witness for C6 on the concrete map after one allocation. -/
theorem C6_free_list_sound_witness :
    ((walkPositions entriesExample pmmExample).map Prod.fst).Nodup
    ∧ ∃ l, freeChain (allocN 1 (init_pdt entriesExample pmmExample descInitExample)).desc
        (allocN 1 (init_pdt entriesExample pmmExample descInitExample)).head l ∧ l.Nodup :=
  ⟨by decide, C6_free_list_sound entriesExample pmmExample descInitExample 1 (by decide)⟩

/-! ## `src/mem/malloc.rs` — the bump-heap OOM handler

`BumpHeap::handle_oom` computes the rounded-up page count for the failed
request, rejects when `base + size > range.end()` (note: `base` is
`range.start()`, not the current `limit`), and otherwise maps `size` pages at
the current `limit`, advancing `limit` by one page per mapping. -/

/-- The `BumpHeap` state: the reserved virtual range (in page frame numbers)
and the committed high-water mark `limit`. -/
structure BumpHeap where
  range_start : Nat
  range_end : Nat
  limit : Nat
deriving DecidableEq

/-- `BumpHeap::handle_oom` for a request of `bytes` bytes (the
`layout.pad_to_align().size()` value): `size` pages are needed; the guard
compares `range.start() + size` against `range.end()`; on success the
frontier advances by `size` pages. -/
def handle_oom (h : BumpHeap) (bytes : Nat) : Except Unit BumpHeap :=
  let size := page_size_roundup bytes
  if h.range_end < h.range_start + size then .error ()
  else .ok { h with limit := h.limit + size }

/-- C3 (code bug): with a fully backed reserved range of 2 pages
(`range = [0,2)`, `limit = 2`), a further OOM request of one page (4096
bytes) succeeds and advances the high-water mark to 3 — past the end of the
reserved range — because the guard compares `range.start() + size` instead of
`limit + size` against `range.end()`. -/
theorem C3_oom_exceeds_range :
    handle_oom ⟨0, 2, 2⟩ 4096 = .ok ⟨0, 2, 3⟩ ∧ (⟨0, 2, 3⟩ : BumpHeap).range_end < (⟨0, 2, 3⟩ : BumpHeap).limit := by
  constructor
  · rfl
  · decide

/-! ## `src/arch/x86_64/paging.rs` — `PageTableSet::map_range`

`map_range` runs five while-loops over a virtual cursor `base` and a physical
cursor `phys` (both in small-page units, advancing in lockstep): small pages
while the cursors are not both medium-aligned, medium pages while not both
large-aligned, large pages while a large page fits, then medium and small
pages for the tail.  Each loop is modelled with a fuel argument; the fuel
passed by `mapRange` (the range end `e`) always dominates the loop's
iteration count `e - base`, so the fuel never runs out before the loop guard
turns false and the model coincides with the while loop. -/

/-- A page-mapping granularity: `map_page_small/medium/large`. -/
inductive PageGran where
  | small | medium | large
deriving DecidableEq

/-- `granPages g`: pages covered by one mapping of granularity `g`. -/
def granPages : PageGran → Nat
  | .small => 1
  | .medium => MEDIUM_PAGE_PAGE_SIZE
  | .large => LARGE_PAGE_PAGE_SIZE

/-- `is_aligned` on a frame number (`self.address().is_aligned(size)`): the
byte address `v * PAGE_SMALL_SIZE` modulo the page size in bytes. -/
def is_aligned (v m : Nat) : Prop :=
  (v * PAGE_SMALL_SIZE) % (m * PAGE_SMALL_SIZE) = 0

instance (v m : Nat) : Decidable (is_aligned v m) := by
  unfold is_aligned; infer_instance

/-- Frame-number alignment is ordinary divisibility of the frame number. -/
theorem is_aligned_iff (v m : Nat) : is_aligned v m ↔ v % m = 0 := by
  unfold is_aligned PAGE_SMALL_SIZE
  rw [Nat.mul_mod_mul_right]
  omega

/-- One emitted mapping: granularity, virtual frame, physical frame. -/
abbrev Mapping := PageGran × Nat × Nat

/-- First loop of `map_range`: small pages while `base < end` and the cursors
are not both medium-aligned. -/
def map_small_head : Nat → Nat → Nat → Nat → List Mapping × Nat × Nat
  | 0, b, p, _ => ([], b, p)
  | f + 1, b, p, e =>
    if b < e ∧ ¬(is_aligned b MEDIUM_PAGE_PAGE_SIZE ∧ is_aligned p MEDIUM_PAGE_PAGE_SIZE) then
      let r := map_small_head f (b + 1) (p + 1) e
      ((.small, b, p) :: r.1, r.2)
    else ([], b, p)

/-- Second loop: medium pages while a medium page fits and the cursors are not
both large-aligned. -/
def map_medium_head : Nat → Nat → Nat → Nat → List Mapping × Nat × Nat
  | 0, b, p, _ => ([], b, p)
  | f + 1, b, p, e =>
    if b + MEDIUM_PAGE_PAGE_SIZE ≤ e
        ∧ ¬(is_aligned b LARGE_PAGE_PAGE_SIZE ∧ is_aligned p LARGE_PAGE_PAGE_SIZE) then
      let r := map_medium_head f (b + MEDIUM_PAGE_PAGE_SIZE) (p + MEDIUM_PAGE_PAGE_SIZE) e
      ((.medium, b, p) :: r.1, r.2)
    else ([], b, p)

/-- Third loop: large pages while a large page fits. -/
def map_large : Nat → Nat → Nat → Nat → List Mapping × Nat × Nat
  | 0, b, p, _ => ([], b, p)
  | f + 1, b, p, e =>
    if b + LARGE_PAGE_PAGE_SIZE ≤ e then
      let r := map_large f (b + LARGE_PAGE_PAGE_SIZE) (p + LARGE_PAGE_PAGE_SIZE) e
      ((.large, b, p) :: r.1, r.2)
    else ([], b, p)

/-- Fourth loop: medium pages while a medium page fits. -/
def map_medium_tail : Nat → Nat → Nat → Nat → List Mapping × Nat × Nat
  | 0, b, p, _ => ([], b, p)
  | f + 1, b, p, e =>
    if b + MEDIUM_PAGE_PAGE_SIZE ≤ e then
      let r := map_medium_tail f (b + MEDIUM_PAGE_PAGE_SIZE) (p + MEDIUM_PAGE_PAGE_SIZE) e
      ((.medium, b, p) :: r.1, r.2)
    else ([], b, p)

/-- Fifth loop: small pages until the end of the range. -/
def map_small_tail : Nat → Nat → Nat → Nat → List Mapping × Nat × Nat
  | 0, b, p, _ => ([], b, p)
  | f + 1, b, p, e =>
    if b < e then
      let r := map_small_tail f (b + 1) (p + 1) e
      ((.small, b, p) :: r.1, r.2)
    else ([], b, p)

/-- `PageTableSet::map_range(base, physical_base, size, flags)`: the sequence
of page mappings emitted by the five passes. -/
def mapRange (base phys size : Nat) : List Mapping :=
  let e := base + size
  let r1 := map_small_head e base phys e
  let r2 := map_medium_head e r1.2.1 r1.2.2 e
  let r3 := map_large e r2.2.1 r2.2.2 e
  let r4 := map_medium_tail e r3.2.1 r3.2.2 e
  let r5 := map_small_tail e r4.2.1 r4.2.2 e
  r1.1 ++ r2.1 ++ r3.1 ++ r4.1 ++ r5.1

/-- `chainProp l b e`: the mappings `l` tile the page range `[b, e)` exactly —
each mapping starts where the previous one ended (no gap, no overlap) and the
last one ends at `e`. -/
def chainProp : List Mapping → Nat → Nat → Prop
  | [], b, e => b = e
  | m :: rest, b, e => m.2.1 = b ∧ chainProp rest (b + granPages m.1) e

/-- Tilings compose. -/
theorem chainProp_append (l1 l2 : List Mapping) (b m e : Nat)
    (h1 : chainProp l1 b m) (h2 : chainProp l2 m e) : chainProp (l1 ++ l2) b e := by
  induction l1 generalizing b with
  | nil => rw [show b = m from h1]; exact h2
  | cons x t ih => exact ⟨h1.1, ih _ h1.2⟩

/-- Behaviour of the first small-page loop: it tiles `[b, b')` with small
pages, keeps the cursors in lockstep, emits small mappings only at positions
where the cursors are not both medium-aligned, and stops either at the range
end or at a both-medium-aligned position. -/
theorem map_small_head_spec (f : Nat) : ∀ (b p e : Nat), e ≤ f + b →
    chainProp (map_small_head f b p e).1 b (map_small_head f b p e).2.1
    ∧ b ≤ (map_small_head f b p e).2.1
    ∧ (b ≤ e → (map_small_head f b p e).2.1 ≤ e)
    ∧ (map_small_head f b p e).2.2 + b = (map_small_head f b p e).2.1 + p
    ∧ (∀ m ∈ (map_small_head f b p e).1,
        m.1 = PageGran.small ∧ m.2.2 + b = m.2.1 + p ∧ b ≤ m.2.1
        ∧ ¬(is_aligned m.2.1 MEDIUM_PAGE_PAGE_SIZE ∧ is_aligned m.2.2 MEDIUM_PAGE_PAGE_SIZE))
    ∧ (¬ (map_small_head f b p e).2.1 < e
        ∨ (is_aligned (map_small_head f b p e).2.1 MEDIUM_PAGE_PAGE_SIZE
            ∧ is_aligned (map_small_head f b p e).2.2 MEDIUM_PAGE_PAGE_SIZE)) := by
  induction f with
  | zero =>
    intro b p e hf
    simp only [map_small_head]
    exact ⟨rfl, le_refl b, fun _ => by omega, by omega, by simp, Or.inl (by omega)⟩
  | succ f ih =>
    intro b p e hf
    by_cases hg : b < e
        ∧ ¬(is_aligned b MEDIUM_PAGE_PAGE_SIZE ∧ is_aligned p MEDIUM_PAGE_PAGE_SIZE)
    · obtain ⟨hc, hb, hle, hlock, hm, hex⟩ := ih (b + 1) (p + 1) e (by omega)
      simp only [map_small_head, if_pos hg]
      refine ⟨⟨rfl, ?_⟩, by omega, fun _ => hle (by omega), by omega, ?_, hex⟩
      · simpa [granPages] using hc
      · intro m hm'
        rcases List.mem_cons.mp hm' with rfl | hm'
        · exact ⟨rfl, by show p + b = b + p; omega, le_refl _, hg.2⟩
        · obtain ⟨hsm, hlk, hbm, hal⟩ := hm m hm'
          exact ⟨hsm, by omega, by omega, hal⟩
    · simp only [map_small_head, if_neg hg]
      push_neg at hg
      refine ⟨rfl, le_refl b, fun h => h, by omega, by simp, ?_⟩
      by_cases hlt : b < e
      · exact Or.inr (hg hlt)
      · exact Or.inl hlt

/-- Behaviour of the medium-page head loop: tiles with medium pages, lockstep
cursors, stops when no medium page fits or the cursors are both
large-aligned. -/
theorem map_medium_head_spec (f : Nat) : ∀ (b p e : Nat), e ≤ f + b →
    chainProp (map_medium_head f b p e).1 b (map_medium_head f b p e).2.1
    ∧ b ≤ (map_medium_head f b p e).2.1
    ∧ (b ≤ e → (map_medium_head f b p e).2.1 ≤ e)
    ∧ (map_medium_head f b p e).2.2 + b = (map_medium_head f b p e).2.1 + p
    ∧ (∀ m ∈ (map_medium_head f b p e).1,
        m.1 = PageGran.medium ∧ m.2.2 + b = m.2.1 + p ∧ b ≤ m.2.1)
    ∧ (¬ (map_medium_head f b p e).2.1 + MEDIUM_PAGE_PAGE_SIZE ≤ e
        ∨ (is_aligned (map_medium_head f b p e).2.1 LARGE_PAGE_PAGE_SIZE
            ∧ is_aligned (map_medium_head f b p e).2.2 LARGE_PAGE_PAGE_SIZE)) := by
  have hM : MEDIUM_PAGE_PAGE_SIZE = 512 := rfl
  induction f with
  | zero =>
    intro b p e hf
    simp only [map_medium_head]
    exact ⟨rfl, le_refl b, fun _ => by omega, by omega, by simp, Or.inl (by omega)⟩
  | succ f ih =>
    intro b p e hf
    by_cases hg : b + MEDIUM_PAGE_PAGE_SIZE ≤ e
        ∧ ¬(is_aligned b LARGE_PAGE_PAGE_SIZE ∧ is_aligned p LARGE_PAGE_PAGE_SIZE)
    · obtain ⟨hc, hb, hle, hlock, hm, hex⟩ :=
        ih (b + MEDIUM_PAGE_PAGE_SIZE) (p + MEDIUM_PAGE_PAGE_SIZE) e (by omega)
      simp only [map_medium_head, if_pos hg]
      refine ⟨⟨rfl, ?_⟩, by omega, fun _ => hle (by omega), by omega, ?_, hex⟩
      · simpa [granPages] using hc
      · intro m hm'
        rcases List.mem_cons.mp hm' with rfl | hm'
        · exact ⟨rfl, by show p + b = b + p; omega, le_refl _⟩
        · obtain ⟨hsm, hlk, hbm⟩ := hm m hm'
          exact ⟨hsm, by omega, by omega⟩
    · simp only [map_medium_head, if_neg hg]
      push_neg at hg
      refine ⟨rfl, le_refl b, fun h => h, by omega, by simp, ?_⟩
      by_cases hlt : b + MEDIUM_PAGE_PAGE_SIZE ≤ e
      · exact Or.inr (hg hlt)
      · exact Or.inl hlt

/-- Behaviour of the large-page loop: tiles with large pages, lockstep
cursors, stops exactly when no large page fits. -/
theorem map_large_spec (f : Nat) : ∀ (b p e : Nat), e ≤ f + b →
    chainProp (map_large f b p e).1 b (map_large f b p e).2.1
    ∧ b ≤ (map_large f b p e).2.1
    ∧ (b ≤ e → (map_large f b p e).2.1 ≤ e)
    ∧ (map_large f b p e).2.2 + b = (map_large f b p e).2.1 + p
    ∧ (∀ m ∈ (map_large f b p e).1,
        m.1 = PageGran.large ∧ m.2.2 + b = m.2.1 + p ∧ b ≤ m.2.1)
    ∧ ¬ (map_large f b p e).2.1 + LARGE_PAGE_PAGE_SIZE ≤ e := by
  have hL : LARGE_PAGE_PAGE_SIZE = 512 * 512 := rfl
  induction f with
  | zero =>
    intro b p e hf
    simp only [map_large]
    exact ⟨rfl, le_refl b, fun _ => by omega, by omega, by simp, by omega⟩
  | succ f ih =>
    intro b p e hf
    by_cases hg : b + LARGE_PAGE_PAGE_SIZE ≤ e
    · obtain ⟨hc, hb, hle, hlock, hm, hex⟩ :=
        ih (b + LARGE_PAGE_PAGE_SIZE) (p + LARGE_PAGE_PAGE_SIZE) e (by omega)
      simp only [map_large, if_pos hg]
      refine ⟨⟨rfl, ?_⟩, by omega, fun _ => hle (by omega), by omega, ?_, hex⟩
      · simpa [granPages] using hc
      · intro m hm'
        rcases List.mem_cons.mp hm' with rfl | hm'
        · exact ⟨rfl, by show p + b = b + p; omega, le_refl _⟩
        · obtain ⟨hsm, hlk, hbm⟩ := hm m hm'
          exact ⟨hsm, by omega, by omega⟩
    · simp only [map_large, if_neg hg]
      exact ⟨rfl, le_refl b, fun h => h, by omega, by simp, hg⟩

/-- Behaviour of the medium-page tail loop: tiles with medium pages, lockstep
cursors, stops exactly when no medium page fits. -/
theorem map_medium_tail_spec (f : Nat) : ∀ (b p e : Nat), e ≤ f + b →
    chainProp (map_medium_tail f b p e).1 b (map_medium_tail f b p e).2.1
    ∧ b ≤ (map_medium_tail f b p e).2.1
    ∧ (b ≤ e → (map_medium_tail f b p e).2.1 ≤ e)
    ∧ (map_medium_tail f b p e).2.2 + b = (map_medium_tail f b p e).2.1 + p
    ∧ (∀ m ∈ (map_medium_tail f b p e).1,
        m.1 = PageGran.medium ∧ m.2.2 + b = m.2.1 + p ∧ b ≤ m.2.1)
    ∧ ¬ (map_medium_tail f b p e).2.1 + MEDIUM_PAGE_PAGE_SIZE ≤ e := by
  have hM : MEDIUM_PAGE_PAGE_SIZE = 512 := rfl
  induction f with
  | zero =>
    intro b p e hf
    simp only [map_medium_tail]
    exact ⟨rfl, le_refl b, fun _ => by omega, by omega, by simp, by omega⟩
  | succ f ih =>
    intro b p e hf
    by_cases hg : b + MEDIUM_PAGE_PAGE_SIZE ≤ e
    · obtain ⟨hc, hb, hle, hlock, hm, hex⟩ :=
        ih (b + MEDIUM_PAGE_PAGE_SIZE) (p + MEDIUM_PAGE_PAGE_SIZE) e (by omega)
      simp only [map_medium_tail, if_pos hg]
      refine ⟨⟨rfl, ?_⟩, by omega, fun _ => hle (by omega), by omega, ?_, hex⟩
      · simpa [granPages] using hc
      · intro m hm'
        rcases List.mem_cons.mp hm' with rfl | hm'
        · exact ⟨rfl, by show p + b = b + p; omega, le_refl _⟩
        · obtain ⟨hsm, hlk, hbm⟩ := hm m hm'
          exact ⟨hsm, by omega, by omega⟩
    · simp only [map_medium_tail, if_neg hg]
      exact ⟨rfl, le_refl b, fun h => h, by omega, by simp, hg⟩

/-- Behaviour of the final small-page loop: it tiles all the way to the range
end `e` with small pages, in lockstep. -/
theorem map_small_tail_spec (f : Nat) : ∀ (b p e : Nat), e ≤ f + b →
    chainProp (map_small_tail f b p e).1 b (map_small_tail f b p e).2.1
    ∧ b ≤ (map_small_tail f b p e).2.1
    ∧ (b ≤ e → (map_small_tail f b p e).2.1 = e)
    ∧ (map_small_tail f b p e).2.2 + b = (map_small_tail f b p e).2.1 + p
    ∧ (∀ m ∈ (map_small_tail f b p e).1,
        m.1 = PageGran.small ∧ m.2.2 + b = m.2.1 + p ∧ b ≤ m.2.1) := by
  induction f with
  | zero =>
    intro b p e hf
    simp only [map_small_tail]
    exact ⟨rfl, le_refl b, fun _ => by omega, by omega, by simp⟩
  | succ f ih =>
    intro b p e hf
    by_cases hg : b < e
    · obtain ⟨hc, hb, hend, hlock, hm⟩ := ih (b + 1) (p + 1) e (by omega)
      simp only [map_small_tail, if_pos hg]
      refine ⟨⟨rfl, ?_⟩, by omega, fun _ => hend (by omega), by omega, ?_⟩
      · simpa [granPages] using hc
      · intro m hm'
        rcases List.mem_cons.mp hm' with rfl | hm'
        · exact ⟨rfl, by show p + b = b + p; omega, le_refl _⟩
        · obtain ⟨hsm, hlk, hbm⟩ := hm m hm'
          exact ⟨hsm, by omega, by omega⟩
    · simp only [map_small_tail, if_neg hg]
      exact ⟨rfl, le_refl b, fun h => by omega, by omega, by simp⟩

/-- The first loop does nothing when its guard is false. -/
theorem map_small_head_stop (f b p e : Nat)
    (h : ¬(b < e ∧ ¬(is_aligned b MEDIUM_PAGE_PAGE_SIZE ∧ is_aligned p MEDIUM_PAGE_PAGE_SIZE))) :
    map_small_head f b p e = ([], b, p) := by
  cases f with
  | zero => rfl
  | succ n => simp only [map_small_head, if_neg h]

/-- The second loop does nothing when its guard is false. -/
theorem map_medium_head_stop (f b p e : Nat)
    (h : ¬(b + MEDIUM_PAGE_PAGE_SIZE ≤ e
        ∧ ¬(is_aligned b LARGE_PAGE_PAGE_SIZE ∧ is_aligned p LARGE_PAGE_PAGE_SIZE))) :
    map_medium_head f b p e = ([], b, p) := by
  cases f with
  | zero => rfl
  | succ n => simp only [map_medium_head, if_neg h]

/-- The large-page loop does nothing when no large page fits. -/
theorem map_large_stop (f b p e : Nat) (h : ¬ b + LARGE_PAGE_PAGE_SIZE ≤ e) :
    map_large f b p e = ([], b, p) := by
  cases f with
  | zero => rfl
  | succ n => simp only [map_large, if_neg h]

/-- The fourth loop does nothing when no medium page fits. -/
theorem map_medium_tail_stop (f b p e : Nat) (h : ¬ b + MEDIUM_PAGE_PAGE_SIZE ≤ e) :
    map_medium_tail f b p e = ([], b, p) := by
  cases f with
  | zero => rfl
  | succ n => simp only [map_medium_tail, if_neg h]

/-- The final loop does nothing when the range is exhausted. -/
theorem map_small_tail_stop (f b p e : Nat) (h : ¬ b < e) :
    map_small_tail f b p e = ([], b, p) := by
  cases f with
  | zero => rfl
  | succ n => simp only [map_small_tail, if_neg h]

/-- One iteration of the large-page loop. -/
theorem map_large_go (f b p e : Nat) (hf : 0 < f) (h : b + LARGE_PAGE_PAGE_SIZE ≤ e) :
    map_large f b p e
      = ((.large, b, p)
          :: (map_large (f - 1) (b + LARGE_PAGE_PAGE_SIZE) (p + LARGE_PAGE_PAGE_SIZE) e).1,
        (map_large (f - 1) (b + LARGE_PAGE_PAGE_SIZE) (p + LARGE_PAGE_PAGE_SIZE) e).2) := by
  obtain ⟨g, rfl⟩ : ∃ g, f = g + 1 := ⟨f - 1, by omega⟩
  simp [map_large, h]

/-- Mapping exactly one large page's worth of address space with both cursors
large-aligned emits exactly one large-page mapping. -/
theorem mapRange_one_large (b p : Nat)
    (hb : is_aligned b LARGE_PAGE_PAGE_SIZE) (hp : is_aligned p LARGE_PAGE_PAGE_SIZE) :
    mapRange b p LARGE_PAGE_PAGE_SIZE = [(.large, b, p)] := by
  have hdvd : (MEDIUM_PAGE_PAGE_SIZE : Nat) ∣ LARGE_PAGE_PAGE_SIZE := ⟨512, rfl⟩
  have hbM : is_aligned b MEDIUM_PAGE_PAGE_SIZE := by
    rw [is_aligned_iff] at hb ⊢
    rw [← Nat.mod_mod_of_dvd b hdvd, hb, Nat.zero_mod]
  have hpM : is_aligned p MEDIUM_PAGE_PAGE_SIZE := by
    rw [is_aligned_iff] at hp ⊢
    rw [← Nat.mod_mod_of_dvd p hdvd, hp, Nat.zero_mod]
  have hL : LARGE_PAGE_PAGE_SIZE = 512 * 512 := rfl
  have hM : MEDIUM_PAGE_PAGE_SIZE = 512 := rfl
  simp only [mapRange]
  rw [map_small_head_stop _ _ _ _ (fun hcon => hcon.2 ⟨hbM, hpM⟩)]
  dsimp only
  rw [map_medium_head_stop _ _ _ _ (fun hcon => hcon.2 ⟨hb, hp⟩)]
  dsimp only
  rw [map_large_go _ _ _ _ (by omega) (le_refl _)]
  rw [map_large_stop _ _ _ _ (by omega)]
  dsimp only
  rw [map_medium_tail_stop _ _ _ _ (by omega)]
  dsimp only
  rw [map_small_tail_stop _ _ _ _ (by omega)]
  simp

/-- C5 (amended): the mappings emitted by `map_range(base, physical_base,
size, flags)` tile exactly the range `[base, base+size)` with no gap and no
overlap; every mapped virtual frame `v` is mapped to `physical_base + (v -
base)`; the passes run small, medium, large, medium, small in that order; a
small page is used only where medium alignment of both cursors fails or where
fewer than a medium page's worth of the range remains; and mapping exactly one
large page's worth with both cursors large-aligned emits exactly one
large-page mapping and nothing else. -/
theorem C5_map_range_amended (base phys size : Nat) :
    chainProp (mapRange base phys size) base (base + size)
    ∧ (∀ m ∈ mapRange base phys size, m.2.2 + base = m.2.1 + phys ∧ base ≤ m.2.1)
    ∧ (∀ m ∈ mapRange base phys size, m.1 = PageGran.small →
        ¬(is_aligned m.2.1 MEDIUM_PAGE_PAGE_SIZE ∧ is_aligned m.2.2 MEDIUM_PAGE_PAGE_SIZE)
        ∨ base + size < m.2.1 + MEDIUM_PAGE_PAGE_SIZE)
    ∧ (∃ l1 l2 l3 l4 l5, mapRange base phys size = l1 ++ l2 ++ l3 ++ l4 ++ l5
        ∧ (∀ m ∈ l1, m.1 = PageGran.small) ∧ (∀ m ∈ l2, m.1 = PageGran.medium)
        ∧ (∀ m ∈ l3, m.1 = PageGran.large) ∧ (∀ m ∈ l4, m.1 = PageGran.medium)
        ∧ (∀ m ∈ l5, m.1 = PageGran.small))
    ∧ (is_aligned base LARGE_PAGE_PAGE_SIZE → is_aligned phys LARGE_PAGE_PAGE_SIZE →
        size = LARGE_PAGE_PAGE_SIZE → mapRange base phys size = [(.large, base, phys)]) := by
  obtain ⟨hc1, hb1, hle1, hlk1, hm1, hex1⟩ :=
    map_small_head_spec (base + size) base phys (base + size) (by omega)
  set r1 := map_small_head (base + size) base phys (base + size) with hr1
  obtain ⟨hc2, hb2, hle2, hlk2, hm2, hex2⟩ :=
    map_medium_head_spec (base + size) r1.2.1 r1.2.2 (base + size) (by omega)
  set r2 := map_medium_head (base + size) r1.2.1 r1.2.2 (base + size) with hr2
  obtain ⟨hc3, hb3, hle3, hlk3, hm3, hex3⟩ :=
    map_large_spec (base + size) r2.2.1 r2.2.2 (base + size) (by omega)
  set r3 := map_large (base + size) r2.2.1 r2.2.2 (base + size) with hr3
  obtain ⟨hc4, hb4, hle4, hlk4, hm4, hex4⟩ :=
    map_medium_tail_spec (base + size) r3.2.1 r3.2.2 (base + size) (by omega)
  set r4 := map_medium_tail (base + size) r3.2.1 r3.2.2 (base + size) with hr4
  obtain ⟨hc5, hb5, hend5, hlk5, hm5⟩ :=
    map_small_tail_spec (base + size) r4.2.1 r4.2.2 (base + size) (by omega)
  set r5 := map_small_tail (base + size) r4.2.1 r4.2.2 (base + size) with hr5
  have he1 : r1.2.1 ≤ base + size := hle1 (by omega)
  have he2 : r2.2.1 ≤ base + size := hle2 he1
  have he3 : r3.2.1 ≤ base + size := hle3 he2
  have he4 : r4.2.1 ≤ base + size := hle4 he3
  have he5 : r5.2.1 = base + size := hend5 he4
  have hmr : mapRange base phys size = r1.1 ++ r2.1 ++ r3.1 ++ r4.1 ++ r5.1 := rfl
  refine ⟨?_, ?_, ?_, ?_, ?_⟩
  · rw [hmr]
    have c12 := chainProp_append _ _ _ _ _ hc1 hc2
    have c13 := chainProp_append _ _ _ _ _ c12 hc3
    have c14 := chainProp_append _ _ _ _ _ c13 hc4
    have c15 := chainProp_append _ _ _ _ _ c14 hc5
    rw [he5] at c15
    exact c15
  · rw [hmr]
    intro m hm
    simp only [List.mem_append] at hm
    rcases hm with (((hm | hm) | hm) | hm) | hm
    · obtain ⟨_, hlk, hbm, _⟩ := hm1 m hm
      exact ⟨by omega, by omega⟩
    · obtain ⟨_, hlk, hbm⟩ := hm2 m hm
      exact ⟨by omega, by omega⟩
    · obtain ⟨_, hlk, hbm⟩ := hm3 m hm
      exact ⟨by omega, by omega⟩
    · obtain ⟨_, hlk, hbm⟩ := hm4 m hm
      exact ⟨by omega, by omega⟩
    · obtain ⟨_, hlk, hbm⟩ := hm5 m hm
      exact ⟨by omega, by omega⟩
  · rw [hmr]
    intro m hm hsmall
    simp only [List.mem_append] at hm
    rcases hm with (((hm | hm) | hm) | hm) | hm
    · exact Or.inl (hm1 m hm).2.2.2
    · exact PageGran.noConfusion (((hm2 m hm).1).symm.trans hsmall)
    · exact PageGran.noConfusion (((hm3 m hm).1).symm.trans hsmall)
    · exact PageGran.noConfusion (((hm4 m hm).1).symm.trans hsmall)
    · refine Or.inr ?_
      have hbm := (hm5 m hm).2.2
      have hM : MEDIUM_PAGE_PAGE_SIZE = 512 := rfl
      omega
  · exact ⟨r1.1, r2.1, r3.1, r4.1, r5.1, hmr,
      fun m hm => (hm1 m hm).1, fun m hm => (hm2 m hm).1, fun m hm => (hm3 m hm).1,
      fun m hm => (hm4 m hm).1, fun m hm => (hm5 m hm).1⟩
  · intro ha hp hsz
    rw [hsz]
    exact mapRange_one_large base phys ha hp

/-- C5 counterexample: mapping a single small page from fully large-aligned
cursors (`mapRange 0 0 1`) emits a small-page mapping at a position where
medium and large alignment of both cursors holds — small pages are not used
only where medium/large alignment fails, but also where the remaining range is
too short for a bigger page. -/
theorem C5_map_range_counterexample :
    mapRange 0 0 1 = [(.small, 0, 0)]
    ∧ is_aligned 0 MEDIUM_PAGE_PAGE_SIZE ∧ is_aligned 0 LARGE_PAGE_PAGE_SIZE := by
  exact ⟨rfl, by decide, by decide⟩

/-- Witness for C5 at `base = 0`, `phys = 0`, `size` one large page: the
scenario hypotheses hold and the mapper emits exactly one large mapping that
tiles the whole range. -/
theorem C5_map_range_amended_witness :
    is_aligned 0 LARGE_PAGE_PAGE_SIZE
    ∧ mapRange 0 0 LARGE_PAGE_PAGE_SIZE = [(.large, 0, 0)]
    ∧ chainProp (mapRange 0 0 LARGE_PAGE_PAGE_SIZE) 0 (0 + LARGE_PAGE_PAGE_SIZE) :=
  ⟨by decide,
   (C5_map_range_amended 0 0 LARGE_PAGE_PAGE_SIZE).2.2.2.2 (by decide) (by decide) rfl,
   (C5_map_range_amended 0 0 LARGE_PAGE_PAGE_SIZE).1⟩
